import Mathlib

/-!
Verification of the message-pipeline core of a Telegram chatbot
(`handler.py`, `function.py`): the history-trimming function
`prune_messages`, the two output chunkers `send_message_kwargs_long` and
`send_message_md_long`, the response dispatcher of `chatgpt_text_handler`,
the access gate `checkAccess`, and the settings/menu callback handlers.

Python strings are modelled as `List Char` (`Text`), so `len` is
`List.length`, slicing `[:n]` is `List.take`, and `str.split("\n")` is
`splitOnNl`. Handlers that mutate `user_data` and emit Telegram calls are
modelled as pure state transitions returning the new state together with
the observable side effects (`Effects`: persistence writes, message edits,
callback acknowledgements); the exception raised by a failing Markdown
send is modelled by an explicit `mdFails` flag on the dispatcher.
-/

set_option maxRecDepth 8000

/-- Characters of a Python string. -/
abbrev Text := List Char

/-- One entry of a chat history: `{"role": ..., "content": ...}`. -/
structure Msg where
  role : String
  content : Text
deriving DecidableEq

/-- Total content length of a message list, `sum(len(m["content"]))`. -/
def msgsLen (l : List Msg) : Nat :=
  (l.map fun m => m.content.length).sum

/-- Loop body of `prune_messages` (function.py lines 53-67): walks the
reversed history accumulating content length. `rem` is
`max_chars - total_chars`; the loop breaks when it reaches 0
(`remaining_chars <= 0`), truncates and breaks when the entry is longer
than the remainder (`content_length > remaining_chars`), and otherwise
keeps the entry whole. -/
def pruneAux : List Msg → Nat → List Msg
  | [], _ => []
  | m :: rest, rem =>
    if rem = 0 then []
    else if rem < m.content.length then
      [{ role := m.role, content := m.content.take rem }]
    else
      m :: pruneAux rest (rem - m.content.length)

/-- `prune_messages(messages, max_chars)` (function.py lines 49-68):
iterate over `reversed(messages)` and return the kept entries reversed
back into chronological order. -/
def prune_messages (messages : List Msg) (max_chars : Nat) : List Msg :=
  (pruneAux messages.reverse max_chars).reverse

/-- Python `text.split("\n")`: `splitOnNl [] = [[]]` matches
`"".split("\n") == [""]`, and every `'\n'` opens a new (possibly empty)
piece. -/
def splitOnNl : Text → List Text
  | [] => [[]]
  | c :: rest =>
    if c = '\n' then [] :: splitOnNl rest
    else
      match splitOnNl rest with
      | [] => [[c]]
      | l :: ls => (c :: l) :: ls

/-- Python `"\n".join(lines)`. -/
def intercalateNl : List Text → Text
  | [] => []
  | [l] => l
  | l :: l2 :: ls => l ++ '\n' :: intercalateNl (l2 :: ls)

/-- The fenced-code-block delimiter, three backticks. -/
def fenceDelim : Text := ['`', '`', '`']

/-- Python `"```" in text`. -/
def containsFence : Text → Bool
  | [] => false
  | c :: rest => fenceDelim.isPrefixOf (c :: rest) || containsFence rest

/-- The text chunked by `send_message_kwargs_long` (handler.py line 994):
`f"{model_message_kwargs}\n{response_message_kwargs}"`. -/
def kwargsContent (model response : Text) : Text :=
  model ++ '\n' :: response

/-- Accumulation loop of `send_message_kwargs_long` (handler.py lines
995-1011). `chunk` is the running string (initially `""`); on overflow the
chunk is flushed and the line starts the next chunk; otherwise the line is
appended as `chunk += line + "\n"` when the chunk is nonempty and as
`chunk = line` when it is empty; a nonempty final chunk is flushed. -/
def kwargsChunksAux : List Text → Text → List Text
  | [], chunk => if chunk.isEmpty then [] else [chunk]
  | line :: rest, chunk =>
    if 4096 < chunk.length + line.length + 1 then
      chunk :: kwargsChunksAux rest line
    else if chunk.isEmpty then
      kwargsChunksAux rest line
    else
      kwargsChunksAux rest (chunk ++ line ++ ['\n'])

/-- The chunks sent by `send_message_kwargs_long` (handler.py lines
991-1018): the label-prefixed content is split on `"\n"` and accumulated
into chunks of at most 4096 characters. -/
def send_message_kwargs_long (model response : Text) : List Text :=
  kwargsChunksAux (splitOnNl (kwargsContent model response)) []

/-- The text chunked by `send_message_md_long` (handler.py line 1030):
`f"*{model_massage_md}*\n{response_md}"`. -/
def mdHeader (model response : Text) : Text :=
  '*' :: model ++ '*' :: '\n' :: response

/-- Accumulation loop of `send_message_md_long` (handler.py lines
1032-1046). `cur` is the running `current_chunk` list of lines; as in the
source, the overflow guard reads `len(current_chunk) + len(line) + 1 >
4096`, where `len(current_chunk)` is the number of accumulated lines (the
list's length), and a flushed chunk is `"\n".join(current_chunk)`. -/
def mdChunksAux : List Text → List Text → List Text
  | [], cur => if cur.isEmpty then [] else [intercalateNl cur]
  | line :: rest, cur =>
    if 4096 < cur.length + line.length + 1 then
      intercalateNl cur :: mdChunksAux rest [line]
    else
      mdChunksAux rest (cur ++ [line])

/-- The chunks sent by `send_message_md_long` (handler.py lines
1029-1054). -/
def send_message_md_long (model response : Text) : List Text :=
  mdChunksAux (splitOnNl (mdHeader model response)) []

/-- The same loop as `mdChunksAux`, flushing the grouped lines instead of
their joined text; used to show the chunking is purely line-based. -/
def mdChunkGroups : List Text → List Text → List (List Text)
  | [], cur => if cur.isEmpty then [] else [cur]
  | line :: rest, cur =>
    if 4096 < cur.length + line.length + 1 then
      cur :: mdChunkGroups rest [line]
    else
      mdChunkGroups rest (cur ++ [line])

/-- The transport mode of one outgoing Telegram call. -/
inductive SendMode where
  | formatted
  | markdown
  | audio
deriving DecidableEq

/-- One outgoing Telegram call with the text it carries. -/
structure Send where
  mode : SendMode
  text : Text
deriving DecidableEq

/-- `send_message_kwargs` (handler.py lines 981-989): one reply rendering
`Text(Bold(model), response)`. -/
def send_message_kwargs (model response : Text) : List Send :=
  [{ mode := SendMode.formatted, text := model ++ response }]

/-- `send_message_md` (handler.py lines 1021-1027): one reply rendering
`f"*{model}*{response}"` in Markdown mode. -/
def send_message_md (model response : Text) : List Send :=
  [{ mode := SendMode.markdown, text := '*' :: model ++ '*' :: response }]

/-- The sends of `send_message_kwargs_long`: each chunk goes out as one
formatted message (handler.py lines 1013-1018). -/
def send_message_kwargs_long_sends (model response : Text) : List Send :=
  (send_message_kwargs_long model response).map fun c =>
    { mode := SendMode.formatted, text := c }

/-- The sends of `send_message_md_long`: each chunk goes out as one
Markdown message (handler.py lines 1049-1054). -/
def send_message_md_long_sends (model response : Text) : List Send :=
  (send_message_md_long model response).map fun c =>
    { mode := SendMode.markdown, text := c }

/-- `text_to_speech` (handler.py lines 1056-1075): one audio send
synthesized from the full, unchunked response text. -/
def text_to_speech (response : Text) : Send :=
  { mode := SendMode.audio, text := response }

/-- The response-sending stage of `chatgpt_text_handler` (handler.py lines
1077-1126). A response containing a triple-backtick delimiter goes through
the Markdown path, others through the formatted path; responses longer
than 4096 characters use the chunked long variant. `mdFails` models the
Markdown path raising (the inner `except` at lines 1111-1126), which falls
back to the formatted path after logging; `voice` is
`user_data.voice_answer`, appending one audio send. -/
def chatgpt_send_response (mdFails voice : Bool) (model_message_chat response : Text) :
    List Send :=
  if containsFence response then
    if mdFails then
      (if 4096 < response.length then
          send_message_kwargs_long_sends model_message_chat response
        else send_message_kwargs model_message_chat response) ++
        (if voice then [text_to_speech response] else [])
    else
      (if 4096 < response.length then
          send_message_md_long_sends model_message_chat response
        else send_message_md model_message_chat response) ++
        (if voice then [text_to_speech response] else [])
  else
    (if 4096 < response.length then
        send_message_kwargs_long_sends model_message_chat response
      else send_message_kwargs model_message_chat response) ++
      (if voice then [text_to_speech response] else [])

/-- Startup value of the global `ALL_USERS_ACCESS` (handler.py line 75). -/
def ALL_USERS_ACCESS : Bool := false

/-- The denial reply of `checkAccess` (handler.py lines 106-109):
`f"<i>Sorry, you do not have access to this bot.\nUser ID:</i> <b>{user_id}</b>"`. -/
def accessDeniedMessage (userId : Nat) : String :=
  "<i>Sorry, you do not have access to this bot.\nUser ID:</i> <b>" ++
    toString userId ++ "</b>"

/-- `checkAccess` (handler.py lines 85-110), with the configured
`OWNER_ID`/`ADMIN_ID` and the global flag as parameters: returns whether
the user is admitted together with the replies sent (the denial message on
rejection, nothing on success). -/
def checkAccess (ownerId adminId : Nat) (allUsersAccess : Bool) (userId : Nat) :
    Bool × List String :=
  if userId = ownerId ∨ userId = adminId then (true, [])
  else if allUsersAccess then (true, [])
  else (false, [accessDeniedMessage userId])

/-- The per-user session record (`user_data` of base.get_or_create_user_data,
fields as initialized in handler.py lines 164-173). -/
structure UserData where
  model : String
  model_message_info : String
  model_message_chat : Text
  messages : List Msg
  count_messages : Nat
  max_out : Nat
  voice_answer : Bool
  system_message : Text
  pic_grade : String
  pic_size : String
deriving DecidableEq

/-- Observable side effects of one callback handler: persistence writes
(`save_user_data` calls), full-replacement screen renders
(`edit_text` calls, by rendered text), and callback acknowledgements
(`callback_query.answer` calls). -/
structure Effects where
  saves : Nat
  edits : List String
  answers : Nat
deriving DecidableEq

/-- The picture-settings screen text (handler.py line 403):
`f"{user_data.pic_grade} : {user_data.pic_size} "`. -/
def pic_screen (u : UserData) : String :=
  u.pic_grade ++ " : " ++ u.pic_size ++ " "

/-- The audio-settings screen text after enabling (handler.py line 678-681):
`f"<i>Audio:</i> {info_voice_answer}"` with `"enabled" if voice_answer else "off"`. -/
def voice_screen (u : UserData) : String :=
  "<i>Audio:</i> " ++ (if u.voice_answer then "enabled" else "off")

/-- `process_callback_set_sd` (handler.py lines 385-408), after the access
check: when the quality is already `"standard"` only the callback is
acknowledged; otherwise the quality is set, saved once, and the screen
re-rendered. -/
def process_callback_set_sd (u : UserData) : UserData × Effects :=
  if u.pic_grade = "standard" then
    (u, { saves := 0, edits := [], answers := 1 })
  else
    let u2 := { u with pic_grade := "standard" }
    (u2, { saves := 1, edits := [pic_screen u2], answers := 1 })

/-- `process_callback_voice_answer_add` (handler.py lines 661-685), after
the access check: when voice answers are already enabled only the callback
is acknowledged; otherwise the flag is set, saved once, and the screen
re-rendered. -/
def process_callback_voice_answer_add (u : UserData) : UserData × Effects :=
  if u.voice_answer then
    (u, { saves := 0, edits := [], answers := 1 })
  else
    let u2 := { u with voice_answer := true }
    (u2, { saves := 1, edits := [voice_screen u2], answers := 1 })

/-- `process_callback_clear` (handler.py lines 611-634), after the access
check: empties the history, resets the counter, saves, and re-renders
`"Context cleared"` unless the message already shows it (`prevText`). -/
def process_callback_clear (u : UserData) (prevText : String) : UserData × Effects :=
  let u2 := { u with messages := [], count_messages := 0 }
  if prevText = "Context cleared" then
    (u2, { saves := 1, edits := [], answers := 1 })
  else
    (u2, { saves := 1, edits := ["Context cleared"], answers := 1 })

/-- The session reset of `command_start_handler` (handler.py lines
162-176): `/start` rewrites every session field to its defaults, the
message history included. -/
def command_start_handler (u : UserData) : UserData :=
  { u with
    model := "gpt-4o-mini"
    model_message_info := "4o mini"
    model_message_chat := "4o mini:\n\n".data
    messages := []
    count_messages := 0
    max_out := 128000
    voice_answer := false
    system_message := []
    pic_grade := "standard"
    pic_size := "1024x1024" }

/-- The history/model-call stage of `chatgpt_text_handler` for the text
models (handler.py lines 935-975): append the user prompt, prune with
`max_chars = user_data.max_out`, insert the transient system entry for the
gpt-4o family only, and after the model answers append the assistant reply
and bump the counter. Returns the updated session and the message list
handed to the model call. -/
def chatgpt_exchange (u : UserData) (user_prompt response : Text) : UserData × List Msg :=
  let messages1 := u.messages ++ [{ role := "user", content := user_prompt }]
  let pruned := prune_messages messages1 u.max_out
  let system_message : Msg := { role := "system", content := u.system_message }
  let apiMessages :=
    if u.model = "gpt-4o-mini" ∨ u.model = "gpt-4o" then system_message :: pruned
    else pruned
  ({ u with
      messages := messages1 ++ [{ role := "assistant", content := response }]
      count_messages := u.count_messages + 1 },
    apiMessages)

/-- A session set to the `o1-mini` model with a nonempty system role
(reachable via the `gpt_o1_mini` callback, handler.py lines 277-303). -/
def userO1 : UserData :=
  { model := "o1-mini"
    model_message_info := "o1 mini"
    model_message_chat := "o1 mini:\n\n".data
    messages := []
    count_messages := 0
    max_out := 128000
    voice_answer := false
    system_message := "Reply briefly.".data
    pic_grade := "standard"
    pic_size := "1024x1024" }

/-- A default-model session whose settings already hold the values the
no-op transitions request, with a nonempty history. -/
def userStd : UserData :=
  { model := "gpt-4o-mini"
    model_message_info := "4o mini"
    model_message_chat := "4o mini:\n\n".data
    messages := [{ role := "user", content := "hi".data }]
    count_messages := 1
    max_out := 128000
    voice_answer := true
    system_message := []
    pic_grade := "standard"
    pic_size := "1024x1024" }

/-- A 9000-character single-line response with no code fence. -/
def bigResponse : Text := List.replicate 9000 'a'

/-- A single 5000-character line. -/
def bigLine5000 : Text := List.replicate 5000 'a'

/-- A response with one fenced code block whose body is the single
5000-character line `bigLine5000`. -/
def fencedLongResponse : Text :=
  fenceDelim ++ '\n' :: (bigLine5000 ++ '\n' :: fenceDelim)

/-- A single 3000-character line. -/
def line3000 : Text := List.replicate 3000 'a'

/-- A two-line response of 3000 characters per line. -/
def twoLongLines : Text := line3000 ++ '\n' :: line3000

theorem msgsLen_reverse (l : List Msg) : msgsLen l.reverse = msgsLen l := by
  simp [msgsLen, List.map_reverse, List.sum_reverse]

theorem reverse_take_reverse_suffix {α : Type _} (l : List α) (k : Nat) :
    (l.reverse.take k).reverse <:+ l := by
  have hpre : l.reverse.take k <+: l.reverse := List.take_prefix k l.reverse
  have h2 : (l.reverse.take k).reverse <:+ l.reverse.reverse := List.reverse_suffix.mpr hpre
  rwa [List.reverse_reverse] at h2

theorem msgsLen_pruneAux_le (l : List Msg) : ∀ rem, msgsLen (pruneAux l rem) ≤ rem := by
  induction l with
  | nil => intro rem; simp [pruneAux, msgsLen]
  | cons m rest ih =>
    intro rem
    by_cases h0 : rem = 0
    · simp [pruneAux, h0, msgsLen]
    · by_cases hlt : rem < m.content.length
      · simp only [pruneAux, if_neg h0, if_pos hlt, msgsLen, List.map_cons, List.map_nil,
          List.sum_cons, List.sum_nil, List.length_take]
        omega
      · simp only [pruneAux, if_neg h0, if_neg hlt, msgsLen, List.map_cons, List.sum_cons]
        have := ih (rem - m.content.length)
        simp only [msgsLen] at this
        omega

theorem pruneAux_spec (l : List Msg) : ∀ rem,
    (∃ k, k ≤ l.length ∧ pruneAux l rem = l.take k) ∨
    (∃ k m rest, l.drop k = m :: rest ∧
      pruneAux l rem =
        l.take k ++ [{ role := m.role, content := m.content.take (rem - msgsLen (l.take k)) }] ∧
      rem - msgsLen (l.take k) < m.content.length) := by
  induction l with
  | nil =>
    intro rem
    exact Or.inl ⟨0, by simp [pruneAux]⟩
  | cons m rest ih =>
    intro rem
    by_cases h0 : rem = 0
    · exact Or.inl ⟨0, by simp [pruneAux, h0]⟩
    · by_cases hlt : rem < m.content.length
      · refine Or.inr ⟨0, m, rest, rfl, ?_, ?_⟩
        · simp [pruneAux, if_neg h0, if_pos hlt, msgsLen]
        · simpa [msgsLen] using hlt
      · have hstep : pruneAux (m :: rest) rem = m :: pruneAux rest (rem - m.content.length) := by
          simp [pruneAux, if_neg h0, if_neg hlt]
        rcases ih (rem - m.content.length) with ⟨k, hk, heq⟩ | ⟨k, m', rest', hdrop, heq, hrem⟩
        · exact Or.inl ⟨k + 1, by simpa using hk, by simp [hstep, heq]⟩
        · refine Or.inr ⟨k + 1, m', rest', by simpa using hdrop, ?_, ?_⟩
          · have hsub : rem - m.content.length - msgsLen (rest.take k)
                = rem - msgsLen ((m :: rest).take (k + 1)) := by
              simp [msgsLen, Nat.sub_sub]
            simp [hstep, heq, hsub]
          · have hsub : rem - m.content.length - msgsLen (rest.take k)
                = rem - msgsLen ((m :: rest).take (k + 1)) := by
              simp [msgsLen, Nat.sub_sub]
            simpa [hsub] using hrem

theorem prune_messages_shape (msgs : List Msg) (b : Nat) :
    (∃ t, prune_messages msgs b = msgs.drop t) ∨
    (∃ t m rest, msgs.drop t = m :: rest ∧
      prune_messages msgs b =
        { role := m.role, content := m.content.take (b - msgsLen rest) } :: rest ∧
      b - msgsLen rest < m.content.length) := by
  rcases pruneAux_spec msgs.reverse b with ⟨k, _, heq⟩ | ⟨k, m, rest', hdrop, heq, hrem⟩
  · left
    rcases reverse_take_reverse_suffix msgs k with ⟨s, hs⟩
    refine ⟨s.length, ?_⟩
    rw [prune_messages, heq]
    conv_rhs => rw [← hs]
    exact (List.drop_left _ _).symm
  · right
    have hrev : msgs.reverse = msgs.reverse.take k ++ (m :: rest') := by
      conv_lhs => rw [← List.take_append_drop k msgs.reverse]
      rw [hdrop]
    have hmsgs : msgs = rest'.reverse ++ (m :: (msgs.reverse.take k).reverse) := by
      conv_lhs => rw [← List.reverse_reverse msgs, hrev]
      simp [List.reverse_append]
    refine ⟨rest'.reverse.length, m, (msgs.reverse.take k).reverse, ?_, ?_, ?_⟩
    · conv_lhs => rw [hmsgs]
      exact List.drop_left _ _
    · rw [prune_messages, heq, List.reverse_append, msgsLen_reverse]
      simp
    · rwa [msgsLen_reverse]

theorem pruneAux_idem (l : List Msg) : ∀ rem, pruneAux (pruneAux l rem) rem = pruneAux l rem := by
  induction l with
  | nil => intro rem; simp [pruneAux]
  | cons m rest ih =>
    intro rem
    by_cases h0 : rem = 0
    · simp [pruneAux, h0]
    · by_cases hlt : rem < m.content.length
      · have hlen : (m.content.take rem).length = rem := by
          simp [List.length_take]
          omega
        simp [pruneAux, if_neg h0, if_pos hlt, hlen]
      · have hstep : pruneAux (m :: rest) rem = m :: pruneAux rest (rem - m.content.length) := by
          simp [pruneAux, if_neg h0, if_neg hlt]
        rw [hstep]
        have hstep2 : pruneAux (m :: pruneAux rest (rem - m.content.length)) rem
            = m :: pruneAux (pruneAux rest (rem - m.content.length)) (rem - m.content.length) := by
          simp [pruneAux, if_neg h0, if_neg hlt]
        rw [hstep2, ih]

theorem splitOnNl_ne_nil (t : Text) : splitOnNl t ≠ [] := by
  match t with
  | [] => simp [splitOnNl]
  | c :: rest =>
    by_cases h : c = '\n'
    · simp [splitOnNl, h]
    · simp only [splitOnNl, if_neg h]
      cases splitOnNl rest <;> simp

theorem splitOnNl_nl (t : Text) : splitOnNl ('\n' :: t) = [] :: splitOnNl t := by
  simp [splitOnNl]

theorem splitOnNl_noNl (t : Text) (h : '\n' ∉ t) : splitOnNl t = [t] := by
  induction t with
  | nil => simp [splitOnNl]
  | cons c rest ih =>
    have hc : c ≠ '\n' := fun hc => h (hc ▸ List.mem_cons_self c rest)
    have hrest : '\n' ∉ rest := fun hr => h (List.mem_cons_of_mem c hr)
    simp [splitOnNl, if_neg hc, ih hrest]

theorem splitOnNl_append (a b : Text) (h : '\n' ∉ a) :
    splitOnNl (a ++ '\n' :: b) = a :: splitOnNl b := by
  induction a with
  | nil => simp [splitOnNl_nl]
  | cons c rest ih =>
    have hc : c ≠ '\n' := fun hc => h (hc ▸ List.mem_cons_self c rest)
    have hrest : '\n' ∉ rest := fun hr => h (List.mem_cons_of_mem c hr)
    simp [splitOnNl, if_neg hc, ih hrest]

theorem intercalateNl_cons_cons (c : Char) (l : Text) (ls : List Text) :
    intercalateNl ((c :: l) :: ls) = c :: intercalateNl (l :: ls) := by
  cases ls with
  | nil => simp [intercalateNl]
  | cons l2 ls2 => simp [intercalateNl]

theorem intercalateNl_splitOnNl (t : Text) : intercalateNl (splitOnNl t) = t := by
  induction t with
  | nil => simp [splitOnNl, intercalateNl]
  | cons c rest ih =>
    by_cases h : c = '\n'
    · subst h
      rw [splitOnNl_nl]
      rcases hs : splitOnNl rest with _ | ⟨l, ls⟩
      · exact absurd hs (splitOnNl_ne_nil rest)
      · rw [hs] at ih
        simp [intercalateNl, ih]
    · simp only [splitOnNl, if_neg h]
      rcases hs : splitOnNl rest with _ | ⟨l, ls⟩
      · exact absurd hs (splitOnNl_ne_nil rest)
      · rw [hs] at ih
        rw [intercalateNl_cons_cons, ih]

theorem splitOnNl_exists_nonempty (t : Text) (c0 : Char) (hc : c0 ∈ t) (hne : c0 ≠ '\n') :
    ∃ l ∈ splitOnNl t, l ≠ [] := by
  induction t with
  | nil => cases hc
  | cons c rest ih =>
    by_cases h : c = '\n'
    · subst h
      have hc' : c0 ∈ rest := by
        rcases List.mem_cons.mp hc with h1 | h1
        · exact absurd h1 hne
        · exact h1
      rcases ih hc' with ⟨l, hl, hlne⟩
      exact ⟨l, by rw [splitOnNl_nl]; exact List.mem_cons_of_mem _ hl, hlne⟩
    · simp only [splitOnNl, if_neg h]
      rcases hs : splitOnNl rest with _ | ⟨l, ls⟩
      · exact absurd hs (splitOnNl_ne_nil rest)
      · exact ⟨c :: l, List.mem_cons_self _ _, by simp⟩

theorem kwargsChunksAux_ne_nil (ls : List Text) :
    ∀ chunk, (chunk ≠ [] ∨ ∃ l ∈ ls, l ≠ []) → kwargsChunksAux ls chunk ≠ [] := by
  induction ls with
  | nil =>
    intro chunk h
    rcases h with h | ⟨l, hl, _⟩
    · simp [kwargsChunksAux, List.isEmpty_iff, h]
    · cases hl
  | cons line rest ih =>
    intro chunk h
    by_cases hov : 4096 < chunk.length + line.length + 1
    · simp [kwargsChunksAux, if_pos hov]
    · by_cases hempty : chunk.isEmpty
      · have hchunk : chunk = [] := List.isEmpty_iff.mp hempty
        simp only [kwargsChunksAux, if_neg hov, if_pos hempty]
        rcases h with h | ⟨l, hl, hlne⟩
        · exact absurd hchunk h
        · rcases List.mem_cons.mp hl with h1 | h1
          · exact ih line (Or.inl (h1 ▸ hlne))
          · by_cases hline : line = []
            · exact ih line (Or.inr ⟨l, h1, hlne⟩)
            · exact ih line (Or.inl hline)
      · simp only [kwargsChunksAux, if_neg hov, if_neg hempty]
        exact ih _ (Or.inl (by simp))

theorem mem_of_containsFence (t : Text) (h : containsFence t = true) : '`' ∈ t := by
  induction t with
  | nil => simp [containsFence] at h
  | cons c rest ih =>
    simp only [containsFence, Bool.or_eq_true] at h
    rcases h with h | h
    · have hpre : fenceDelim <+: c :: rest := by
        rw [← List.isPrefixOf_iff_prefix]
        exact h
      exact hpre.subset (by simp [fenceDelim])
    · exact List.mem_cons_of_mem c (ih h)

theorem mdChunksAux_eq_groups (ls : List Text) :
    ∀ cur, mdChunksAux ls cur = (mdChunkGroups ls cur).map intercalateNl := by
  induction ls with
  | nil =>
    intro cur
    by_cases h : cur.isEmpty <;> simp [mdChunksAux, mdChunkGroups, h]
  | cons line rest ih =>
    intro cur
    by_cases hov : 4096 < cur.length + line.length + 1
    · simp [mdChunksAux, mdChunkGroups, if_pos hov, ih]
    · simp [mdChunksAux, mdChunkGroups, if_neg hov, ih]

theorem mdChunkGroups_flatten (ls : List Text) :
    ∀ cur, (mdChunkGroups ls cur).flatten = cur ++ ls := by
  induction ls with
  | nil =>
    intro cur
    by_cases h : cur.isEmpty
    · simp [mdChunkGroups, h, List.isEmpty_iff.mp h]
    · simp [mdChunkGroups, h]
  | cons line rest ih =>
    intro cur
    by_cases hov : 4096 < cur.length + line.length + 1
    · simp [mdChunkGroups, if_pos hov, ih]
    · simp [mdChunkGroups, if_neg hov, ih]

theorem kwargsAux_flush (line : Text) (rest : List Text) (chunk : Text)
    (h : 4096 < chunk.length + line.length + 1) :
    kwargsChunksAux (line :: rest) chunk = chunk :: kwargsChunksAux rest line := by
  simp only [kwargsChunksAux]
  rw [if_pos h]

theorem kwargsAux_open (line : Text) (rest : List Text) (h : ¬ 4096 < line.length + 1) :
    kwargsChunksAux (line :: rest) [] = kwargsChunksAux rest line := by
  have h2 : ¬ 4096 < ([] : Text).length + line.length + 1 := by simpa using h
  simp only [kwargsChunksAux]
  rw [if_neg h2]
  simp

theorem kwargsAux_append (line : Text) (rest : List Text) (chunk : Text) (hne : chunk ≠ [])
    (h : ¬ 4096 < chunk.length + line.length + 1) :
    kwargsChunksAux (line :: rest) chunk = kwargsChunksAux rest (chunk ++ line ++ ['\n']) := by
  simp only [kwargsChunksAux]
  rw [if_neg h, if_neg (by simpa [List.isEmpty_iff] using hne)]

theorem kwargsAux_last (chunk : Text) (hne : chunk ≠ []) :
    kwargsChunksAux [] chunk = [chunk] := by
  simp only [kwargsChunksAux]
  rw [if_neg (by simpa [List.isEmpty_iff] using hne)]

theorem mdAux_flush (line : Text) (rest cur : List Text)
    (h : 4096 < cur.length + line.length + 1) :
    mdChunksAux (line :: rest) cur = intercalateNl cur :: mdChunksAux rest [line] := by
  simp only [mdChunksAux]
  rw [if_pos h]

theorem mdAux_push (line : Text) (rest cur : List Text)
    (h : ¬ 4096 < cur.length + line.length + 1) :
    mdChunksAux (line :: rest) cur = mdChunksAux rest (cur ++ [line]) := by
  simp only [mdChunksAux]
  rw [if_neg h]

theorem mdAux_last (cur : List Text) (hne : cur ≠ []) :
    mdChunksAux [] cur = [intercalateNl cur] := by
  simp only [mdChunksAux]
  rw [if_neg (by simpa [List.isEmpty_iff] using hne)]

theorem nl_not_mem_replicate (n : Nat) : '\n' ∉ List.replicate n 'a' := by
  intro h
  exact absurd (List.mem_replicate.mp h).2 (by decide)

theorem replicate_a_ne_nil (n : Nat) (hn : n ≠ 0) : List.replicate n 'a' ≠ [] := by
  intro h
  have hlen := congrArg List.length h
  rw [List.length_replicate] at hlen
  exact hn (by simpa using hlen)

theorem bigResponse_length : bigResponse.length = 9000 := by
  rw [bigResponse, List.length_replicate]

theorem kwargs_long_9000 :
    send_message_kwargs_long "4o mini:\n\n".data bigResponse
      = ["4o mini:\n\n".data, bigResponse] := by
  have hXne : bigResponse ≠ [] := by
    rw [bigResponse]
    exact replicate_a_ne_nil 9000 (by decide)
  have hsplit : splitOnNl (kwargsContent "4o mini:\n\n".data bigResponse)
      = ["4o mini:".data, [], [], bigResponse] := by
    have hc : kwargsContent "4o mini:\n\n".data bigResponse
        = "4o mini:".data ++ '\n' :: ('\n' :: ('\n' :: bigResponse)) := rfl
    rw [hc, splitOnNl_append _ _ (by decide), splitOnNl_nl, splitOnNl_nl,
      splitOnNl_noNl _ (by rw [bigResponse]; exact nl_not_mem_replicate 9000)]
  rw [send_message_kwargs_long, hsplit]
  rw [kwargsAux_open _ _ (by decide)]
  rw [kwargsAux_append _ _ _ (by decide) (by decide)]
  rw [show "4o mini:".data ++ ([] : Text) ++ ['\n'] = "4o mini:\n".data from by decide]
  rw [kwargsAux_append _ _ _ (by decide) (by decide)]
  rw [show "4o mini:\n".data ++ ([] : Text) ++ ['\n'] = "4o mini:\n\n".data from by decide]
  rw [kwargsAux_flush _ _ _ (by rw [bigResponse_length]; decide)]
  rw [kwargsAux_last _ hXne]

theorem bigLine5000_length : bigLine5000.length = 5000 := by
  rw [bigLine5000, List.length_replicate]

theorem md_long_fenced_eval :
    send_message_md_long "m".data fencedLongResponse
      = ["*m*\n```".data, bigLine5000 ++ '\n' :: fenceDelim] := by
  have hsplit : splitOnNl (mdHeader "m".data fencedLongResponse)
      = ["*m*".data, fenceDelim, bigLine5000, fenceDelim] := by
    have hc : mdHeader "m".data fencedLongResponse
        = "*m*".data ++ '\n' ::
            (fenceDelim ++ '\n' :: (bigLine5000 ++ '\n' :: fenceDelim)) := rfl
    rw [hc, splitOnNl_append _ _ (by decide), splitOnNl_append _ _ (by decide),
      splitOnNl_append _ _ (by rw [bigLine5000]; exact nl_not_mem_replicate 5000),
      splitOnNl_noNl _ (by decide)]
  rw [send_message_md_long, hsplit]
  rw [mdAux_push _ _ _ (by decide)]
  rw [show ([] : List Text) ++ ["*m*".data] = ["*m*".data] from by simp]
  rw [mdAux_push _ _ _ (by decide)]
  rw [show ["*m*".data] ++ [fenceDelim] = ["*m*".data, fenceDelim] from by simp]
  rw [mdAux_flush _ _ _
    (by rw [List.length_cons, List.length_singleton, bigLine5000_length]; decide)]
  rw [mdAux_push _ _ _ (by rw [List.length_singleton]; decide)]
  rw [show [bigLine5000] ++ [fenceDelim] = [bigLine5000, fenceDelim] from by simp]
  rw [mdAux_last _ (by simp)]
  rw [show intercalateNl ["*m*".data, fenceDelim] = "*m*\n```".data from by decide]
  rw [show intercalateNl [bigLine5000, fenceDelim]
      = bigLine5000 ++ '\n' :: fenceDelim from by simp [intercalateNl]]

theorem line3000_length : line3000.length = 3000 := by
  rw [line3000, List.length_replicate]

theorem md_long_twoLines_eval :
    send_message_md_long "mm".data twoLongLines = ["*mm*".data ++ '\n' :: twoLongLines] := by
  have hsplit : splitOnNl (mdHeader "mm".data twoLongLines)
      = ["*mm*".data, line3000, line3000] := by
    have hc : mdHeader "mm".data twoLongLines
        = "*mm*".data ++ '\n' :: (line3000 ++ '\n' :: line3000) := rfl
    rw [hc, splitOnNl_append _ _ (by decide),
      splitOnNl_append _ _ (by rw [line3000]; exact nl_not_mem_replicate 3000),
      splitOnNl_noNl _ (by rw [line3000]; exact nl_not_mem_replicate 3000)]
  rw [send_message_md_long, hsplit]
  rw [mdAux_push _ _ _ (by decide)]
  rw [show ([] : List Text) ++ ["*mm*".data] = ["*mm*".data] from by simp]
  rw [mdAux_push _ _ _ (by rw [List.length_singleton, line3000_length]; decide)]
  rw [show ["*mm*".data] ++ [line3000] = ["*mm*".data, line3000] from by simp]
  rw [mdAux_push _ _ _ (by rw [List.length_cons, List.length_singleton, line3000_length]; decide)]
  rw [show ["*mm*".data, line3000] ++ [line3000]
      = ["*mm*".data, line3000, line3000] from by simp]
  rw [mdAux_last _ (by simp)]
  rw [show intercalateNl ["*mm*".data, line3000, line3000]
      = "*mm*".data ++ '\n' :: twoLongLines from by simp [intercalateNl, twoLongLines]]

theorem md_long_twoLines_oversized : 4096 < ("*mm*".data ++ '\n' :: twoLongLines).length := by
  rw [twoLongLines]
  simp only [List.length_append, List.length_cons, line3000_length]
  decide

/-- C1: code evaluated at the failing inputs. The formatted long variant is
not a lossless round-trip: for model label `"m"` and response `"a\nb"`,
joining its segments with the removed newlines reinserted does not
reconstruct the chunked text (the loop writes `chunk += line + "\n"`, losing
the separator before the first appended line and adding a trailing one). The
code-preserving long variant can emit a segment longer than 4096 characters:
on a 3000+3000 two-line response it returns one 6006-character segment,
because its guard measures `len(current_chunk)` — the number of accumulated
lines — instead of the chunk's character length. -/
theorem chunkers_violate_contract :
    intercalateNl (send_message_kwargs_long "m".data "a\nb".data)
        ≠ kwargsContent "m".data "a\nb".data ∧
    send_message_md_long "mm".data twoLongLines = ["*mm*".data ++ '\n' :: twoLongLines] ∧
    4096 < ("*mm*".data ++ '\n' :: twoLongLines).length :=
  ⟨by decide, md_long_twoLines_eval, md_long_twoLines_oversized⟩

/-- C2 (amended): the code-preserving variant `send_message_md_long` chunks
purely at line boundaries with no fence awareness: its segments are the
newline-joins of consecutive groups of whole input lines, and those groups
concatenate back to exactly the line list of the label-prefixed text — so
nothing prevents a segment boundary from falling inside a fenced block. -/
theorem send_message_md_long_line_groups (model response : Text) :
    ∃ groups : List (List Text),
      send_message_md_long model response = groups.map intercalateNl ∧
      groups.flatten = splitOnNl (mdHeader model response) :=
  ⟨mdChunkGroups (splitOnNl (mdHeader model response)) [],
    by rw [send_message_md_long, mdChunksAux_eq_groups],
    by rw [mdChunkGroups_flatten]; simp⟩

/-- C2 counterexample: for a response that is one fenced code block whose
body is a single 5000-character line, the code-preserving variant puts the
opening delimiter in the first segment and the closing delimiter in the
second — each segment holds exactly one of the block's two delimiters. -/
theorem md_long_splits_fenced_block :
    send_message_md_long "m".data fencedLongResponse
      = ["*m*\n```".data, bigLine5000 ++ '\n' :: fenceDelim] ∧
    (splitOnNl "*m*\n```".data).count fenceDelim = 1 ∧
    (splitOnNl (bigLine5000 ++ '\n' :: fenceDelim)).count fenceDelim = 1 ∧
    containsFence fencedLongResponse = true := by
  refine ⟨md_long_fenced_eval, by decide, ?_, by decide⟩
  rw [splitOnNl_append _ _ (by rw [bigLine5000]; exact nl_not_mem_replicate 5000),
    splitOnNl_noNl _ (by decide)]
  rw [List.count_cons, List.count_cons, List.count_nil]
  rw [show (bigLine5000 == fenceDelim) = false from by decide]
  rw [show (fenceDelim == fenceDelim) = true from by decide]
  simp

/-- C3: `prune_messages` keeps the total content length within the budget;
the result is a suffix of the history in original chronological order in
which at most the oldest included entry is truncated while all later
entries are included whole; for 50 entries of 100 characters each and
budget 250 it returns the 2 most recent entries whole plus the first 50
characters of the third-most-recent. -/
theorem prune_messages_spec (msgs : List Msg) (b : Nat) :
    msgsLen (prune_messages msgs b) ≤ b ∧
    ((∃ t, prune_messages msgs b = msgs.drop t) ∨
      (∃ t m rest, msgs.drop t = m :: rest ∧
        ∃ r, prune_messages msgs b
          = { role := m.role, content := m.content.take r } :: rest)) ∧
    prune_messages (List.replicate 50 { role := "user", content := List.replicate 100 'h' }) 250
      = [{ role := "user", content := List.replicate 50 'h' },
         { role := "user", content := List.replicate 100 'h' },
         { role := "user", content := List.replicate 100 'h' }] := by
  refine ⟨?_, ?_, by decide⟩
  · rw [prune_messages, msgsLen_reverse]
    exact msgsLen_pruneAux_le _ b
  · rcases prune_messages_shape msgs b with ⟨t, h⟩ | ⟨t, m, rest, h1, h2, _⟩
    · exact Or.inl ⟨t, h⟩
    · exact Or.inr ⟨t, m, rest, h1, _, h2⟩

/-- C10: when `prune_messages` truncates, the truncated oldest-kept entry is
a freshly built record with the same role whose content is the prefix of the
original content filling exactly the remaining budget — the cut removes the
end, never the beginning, of that message's text. -/
theorem prune_messages_truncation_prefix (msgs : List Msg) (b : Nat) :
    (∃ t, prune_messages msgs b = msgs.drop t) ∨
    (∃ t m rest, msgs.drop t = m :: rest ∧
      prune_messages msgs b
        = { role := m.role, content := m.content.take (b - msgsLen rest) } :: rest ∧
      m.content.take (b - msgsLen rest) <+: m.content ∧
      b - msgsLen rest < m.content.length) := by
  rcases prune_messages_shape msgs b with ⟨t, h⟩ | ⟨t, m, rest, h1, h2, h3⟩
  · exact Or.inl ⟨t, h⟩
  · exact Or.inr ⟨t, m, rest, h1, h2, List.take_prefix _ _, h3⟩

/-- C9 (amended): pruning is a pure function whose output is its own fixed
point — pruning the pruned history again changes nothing, so repeated calls
with the same arguments agree — and extraction never touches the stored
history: after an exchange the stored history is exactly the old history
plus the appended user and assistant entries. The clear callback empties
the history, and so does the /start reset: clear is not the only such
operation. -/
theorem prune_pure_and_clear (msgs : List Msg) (b : Nat) (u : UserData) (p r : Text)
    (prevText : String) :
    prune_messages (prune_messages msgs b) b = prune_messages msgs b ∧
    (chatgpt_exchange u p r).1.messages
      = u.messages
          ++ [{ role := "user", content := p }, { role := "assistant", content := r }] ∧
    (process_callback_clear u prevText).1.messages = [] ∧
    (process_callback_clear u prevText).1.count_messages = 0 ∧
    (command_start_handler u).messages = [] := by
  refine ⟨?_, by simp [chatgpt_exchange], ?_, ?_, rfl⟩
  · rw [prune_messages, prune_messages, List.reverse_reverse, pruneAux_idem]
  · by_cases hp : prevText = "Context cleared" <;> simp [process_callback_clear, hp]
  · by_cases hp : prevText = "Context cleared" <;> simp [process_callback_clear, hp]

/-- C9 counterexample: the /start reset empties a nonempty stored history,
so the clear callback is not the only operation that empties it. -/
theorem command_start_empties_history :
    (command_start_handler userStd).messages = [] ∧ userStd.messages ≠ [] :=
  ⟨rfl, by decide⟩

theorem containsFence_replicate_a (n : Nat) : containsFence (List.replicate n 'a') = false := by
  induction n with
  | zero => rfl
  | succ k ih =>
    rw [List.replicate_succ]
    simp only [containsFence, List.isPrefixOf, fenceDelim]
    rw [show (('`' == 'a') = false) from by decide]
    simp [ih]

theorem containsFence_bigResponse : containsFence bigResponse = false := by
  rw [bigResponse]
  exact containsFence_replicate_a 9000

theorem dispatch_9000_eval :
    chatgpt_send_response false false "4o mini:\n\n".data bigResponse
      = [{ mode := SendMode.formatted, text := "4o mini:\n\n".data },
         { mode := SendMode.formatted, text := bigResponse }] := by
  rw [chatgpt_send_response, if_neg (by simp [containsFence_bigResponse]),
    if_pos (by rw [bigResponse_length]; decide)]
  rw [send_message_kwargs_long_sends, kwargs_long_9000]
  simp

/-- C4 (amended): dispatch selects its variant by content shape and length —
fenced responses go through the Markdown path and unfenced ones through the
formatted path (no Markdown-mode send), responses within 4096 characters are
a single primary send and longer ones the chunked multi-send variant; the
9000-character single-line unfenced response is dispatched as exactly 2
formatted sends — the model label segment and the whole oversized line —
whose newline-join is the label-prefixed original text (not 3 sends, since
a single oversized line is never hard-split). -/
theorem chatgpt_dispatch_selection (m r : Text) (v : Bool) :
    (containsFence r = false →
      ∀ s ∈ chatgpt_send_response false v m r,
        s.mode = SendMode.formatted ∨ s.mode = SendMode.audio) ∧
    (containsFence r = true → 4096 < r.length →
      chatgpt_send_response false v m r
        = send_message_md_long_sends m r ++ (if v then [text_to_speech r] else [])) ∧
    (containsFence r = true → r.length ≤ 4096 →
      chatgpt_send_response false v m r
        = send_message_md m r ++ (if v then [text_to_speech r] else [])) ∧
    (containsFence r = false → r.length ≤ 4096 →
      chatgpt_send_response false v m r
        = send_message_kwargs m r ++ (if v then [text_to_speech r] else [])) ∧
    (containsFence r = false → 4096 < r.length →
      chatgpt_send_response false v m r
        = send_message_kwargs_long_sends m r ++ (if v then [text_to_speech r] else [])) ∧
    chatgpt_send_response false false "4o mini:\n\n".data bigResponse
      = [{ mode := SendMode.formatted, text := "4o mini:\n\n".data },
         { mode := SendMode.formatted, text := bigResponse }] ∧
    intercalateNl ["4o mini:\n\n".data, bigResponse]
      = kwargsContent "4o mini:\n\n".data bigResponse := by
  refine ⟨?_, ?_, ?_, ?_, ?_, dispatch_9000_eval, by simp [intercalateNl, kwargsContent]⟩
  · intro hf s hs
    rw [chatgpt_send_response, if_neg (by simp [hf])] at hs
    rcases List.mem_append.mp hs with h | h
    · by_cases hlen : 4096 < r.length
      · rw [if_pos hlen] at h
        rcases List.mem_map.mp h with ⟨c, _, hc⟩
        rw [← hc]
        left
        rfl
      · rw [if_neg hlen] at h
        rcases List.mem_singleton.mp h with rfl
        left
        rfl
    · rcases v with _ | _
      · simp at h
      · rcases List.mem_singleton.mp (by simpa using h) with rfl
        right
        rfl
  · intro hf hlen
    rw [chatgpt_send_response, if_pos hf, if_neg (by simp), if_pos hlen]
  · intro hf hlen
    rw [chatgpt_send_response, if_pos hf, if_neg (by simp),
      if_neg (by exact Nat.not_lt.mpr hlen)]
  · intro hf hlen
    rw [chatgpt_send_response, if_neg (by simp [hf]), if_neg (by exact Nat.not_lt.mpr hlen)]
  · intro hf hlen
    rw [chatgpt_send_response, if_neg (by simp [hf]), if_pos hlen]

/-- C4 counterexample: the 9000-character single-line response with no code
fence is dispatched as 2 sends, not 3. -/
theorem chatgpt_dispatch_9000_two_sends :
    (chatgpt_send_response false false "4o mini:\n\n".data bigResponse).length = 2 ∧
    bigResponse.length = 9000 ∧ containsFence bigResponse = false :=
  ⟨by rw [dispatch_9000_eval]; rfl, bigResponse_length, containsFence_bigResponse⟩

/-- C5: when a fenced response is dispatched and the code-preserving
(Markdown) path raises, the dispatcher falls back to the formatted variant
selected by the same length rule, so the response is still delivered: the
sends are exactly the formatted variant's (plus the optional audio send),
none of them is a Markdown send, and the send list is nonempty — no extra
user-visible error reply is produced, the failure is only logged. -/
theorem md_failure_falls_back (v : Bool) (m r : Text) (hf : containsFence r = true) :
    chatgpt_send_response true v m r
      = (if 4096 < r.length then send_message_kwargs_long_sends m r
          else send_message_kwargs m r) ++ (if v then [text_to_speech r] else []) ∧
    (∀ s ∈ chatgpt_send_response true v m r, s.mode ≠ SendMode.markdown) ∧
    chatgpt_send_response true v m r ≠ [] := by
  have hmain : chatgpt_send_response true v m r
      = (if 4096 < r.length then send_message_kwargs_long_sends m r
          else send_message_kwargs m r) ++ (if v then [text_to_speech r] else []) := by
    rw [chatgpt_send_response, if_pos hf, if_pos rfl]
  refine ⟨hmain, ?_, ?_⟩
  · intro s hs
    rw [hmain] at hs
    rcases List.mem_append.mp hs with h | h
    · by_cases hlen : 4096 < r.length
      · rw [if_pos hlen] at h
        rcases List.mem_map.mp h with ⟨c, _, hc⟩
        rw [← hc]
        exact fun hh => SendMode.noConfusion hh
      · rw [if_neg hlen] at h
        rcases List.mem_singleton.mp h with rfl
        exact fun hh => SendMode.noConfusion hh
    · rcases v with _ | _
      · simp at h
      · rcases List.mem_singleton.mp (by simpa using h) with rfl
        exact fun hh => SendMode.noConfusion hh
  · rw [hmain]
    by_cases hlen : 4096 < r.length
    · rw [if_pos hlen]
      intro hcontra
      rcases List.append_eq_nil.mp hcontra with ⟨h1, _⟩
      have hchunks : send_message_kwargs_long m r ≠ [] := by
        apply kwargsChunksAux_ne_nil
        right
        have hmem : '`' ∈ kwargsContent m r := by
          rw [kwargsContent]
          exact List.mem_append.mpr
            (Or.inr (List.mem_cons_of_mem _ (mem_of_containsFence r hf)))
        exact splitOnNl_exists_nonempty _ '`' hmem (by decide)
      exact hchunks (by simpa [send_message_kwargs_long_sends] using h1)
    · rw [if_neg hlen]
      simp [send_message_kwargs]

/-- C5 witness: the fallback at the concrete fenced response "```" with the
label "m" and voice answers off is the single formatted send. -/
theorem md_failure_falls_back_witness :
    chatgpt_send_response true false "m".data fenceDelim
      = send_message_kwargs "m".data fenceDelim ∧
    ∀ s ∈ chatgpt_send_response true false "m".data fenceDelim,
      s.mode ≠ SendMode.markdown := by
  have h := md_failure_falls_back false "m".data fenceDelim (by decide)
  refine ⟨?_, h.2.1⟩
  rw [h.1, if_neg (by decide)]
  simp

/-- C6: the access check admits a user exactly when the id equals the owner
id, equals the admin id, or the process-wide flag is on (the flag's startup
value is false); when it rejects, its only side effect is the one denial
reply, whose text embeds the numeric user identifier; when it admits, it
sends nothing. -/
theorem checkAccess_spec (ownerId adminId userId : Nat) (allUsers : Bool) :
    ((checkAccess ownerId adminId allUsers userId).1 = true
      ↔ (userId = ownerId ∨ userId = adminId ∨ allUsers = true)) ∧
    ((checkAccess ownerId adminId allUsers userId).2
      = if (checkAccess ownerId adminId allUsers userId).1 then []
        else [accessDeniedMessage userId]) ∧
    (∃ pre post : Text,
      (accessDeniedMessage userId).data = pre ++ (toString userId).data ++ post) ∧
    ALL_USERS_ACCESS = false := by
  refine ⟨?_, ?_,
    ⟨"<i>Sorry, you do not have access to this bot.\nUser ID:</i> <b>".data,
      "</b>".data, ?_⟩, rfl⟩
  · rw [checkAccess]
    by_cases h1 : userId = ownerId ∨ userId = adminId
    · simp [h1]
      tauto
    · rcases allUsers with _ | _ <;> simp [h1]
  · rw [checkAccess]
    by_cases h1 : userId = ownerId ∨ userId = adminId
    · simp [h1]
    · rcases allUsers with _ | _ <;> simp [h1]
  · rw [accessDeniedMessage, String.data_append, String.data_append]

/-- C7 (amended): a settings transition invoked when the setting already has
the requested value performs no persistence write, no state change and no
re-render — its only side effect is the callback acknowledgement; invoked at
a different value it writes once and re-renders the screen. -/
theorem settings_noop_transitions (u : UserData) :
    (u.pic_grade = "standard" →
      process_callback_set_sd u = (u, { saves := 0, edits := [], answers := 1 })) ∧
    (u.pic_grade ≠ "standard" →
      process_callback_set_sd u
        = ({ u with pic_grade := "standard" },
            { saves := 1, edits := [pic_screen { u with pic_grade := "standard" }],
              answers := 1 })) ∧
    (u.voice_answer = true →
      process_callback_voice_answer_add u = (u, { saves := 0, edits := [], answers := 1 })) ∧
    (u.voice_answer = false →
      process_callback_voice_answer_add u
        = ({ u with voice_answer := true },
            { saves := 1, edits := [voice_screen { u with voice_answer := true }],
              answers := 1 })) :=
  ⟨fun h => by simp [process_callback_set_sd, h],
    fun h => by simp [process_callback_set_sd, h],
    fun h => by simp [process_callback_voice_answer_add, h],
    fun h => by simp [process_callback_voice_answer_add, h]⟩

/-- C7 counterexample: with the quality already "standard" and voice answers
already enabled, the no-op transitions perform no persistence write but also
no re-render: the edit list is empty, not the screen render the claim
requires. -/
theorem settings_noop_no_rerender :
    (process_callback_set_sd userStd).2.edits = [] ∧
    (process_callback_set_sd userStd).2.edits ≠ [pic_screen userStd] ∧
    (process_callback_voice_answer_add userStd).2.edits = [] ∧
    (process_callback_set_sd userStd).2.saves = 0 ∧
    (process_callback_voice_answer_add userStd).2.saves = 0 := by
  refine ⟨rfl, by decide, rfl, rfl, rfl⟩

/-- C8 (amended): for the gpt-4o-family models the session's system role is
injected as a transient system entry at the head of the pruned message list
handed to the model call; the stored history gains exactly the appended user
and assistant entries, and a history free of system entries stays free of
them — the transient entry is never stored. -/
theorem system_role_transient (u : UserData) (p r : Text) :
    (u.model = "gpt-4o-mini" ∨ u.model = "gpt-4o" →
      (chatgpt_exchange u p r).2
        = { role := "system", content := u.system_message }
            :: prune_messages (u.messages ++ [{ role := "user", content := p }]) u.max_out) ∧
    (chatgpt_exchange u p r).1.messages
      = u.messages
          ++ [{ role := "user", content := p }, { role := "assistant", content := r }] ∧
    ((∀ x ∈ u.messages, x.role ≠ "system") →
      ∀ x ∈ (chatgpt_exchange u p r).1.messages, x.role ≠ "system") := by
  refine ⟨fun h => by simp [chatgpt_exchange, h], by simp [chatgpt_exchange], ?_⟩
  intro hall x hx
  simp only [chatgpt_exchange, List.append_assoc, List.singleton_append,
    List.mem_append, List.mem_cons, List.not_mem_nil, or_false] at hx
  rcases hx with hx | hx | hx
  · exact hall x hx
  · rw [hx]
    simp
  · rw [hx]
    simp

/-- C8 counterexample: with the o1-mini model selected and a nonempty system
role, the message list handed to the model call contains no system entry:
its roles are exactly ["user"]. -/
theorem o1_skips_system_injection :
    ((chatgpt_exchange userO1 "hi".data "ok".data).2).map Msg.role = ["user"] ∧
    userO1.system_message ≠ [] := by decide
